import Mathlib

/-!
Shallow embedding of the reth fragment under verification.

Scope of the embedding:
  - `crates/storage/provider/src/execution_result.rs`: the `PostState`
    journal (`Change`, `Storage`, the mutators, `extend`, `write_to_db`).
  - `crates/net/common/src/network_io_meter.rs`: the counter arithmetic of
    `MeteredStream::poll_read` / `poll_write`.
  - `crates/sync-controller/src/lib.rs`: the `SyncController` poll loop.
  - `bin/reth/src/prestate/mod.rs`: the prestate dump filter and the
    `geth_alloc_compat` hex rendering.

Modelling conventions:
  - Machine integers (`u64`, `U256`, `TransitionId`, addresses, hashes) are
    `Nat`; wrapping arithmetic is written explicitly with `% 2 ^ 64`.
  - `BTreeMap` values are association lists (`List (Nat x _)`) with a
    replace-on-hit insert (`insertA`); iteration order is list order.
  - A dup-sort table maps each key to the list of its duplicate values in
    stored (sub-key sorted) order; append-only change-set tables are flat
    lists of `(key, value)` pairs in append order.
  - Every definition is computable so that concrete runs can be settled by
    `decide`.
-/

set_option autoImplicit false

namespace RethSpec

/-- Association list lookup keyed by `Nat`: first entry with the key wins
(models map lookup; association lists here carry unique keys). -/
def lookupA {α : Type} : List (Nat × α) → Nat → Option α
  | [], _ => none
  | p :: rest, a => if p.1 = a then some p.2 else lookupA rest a

/-- Association list insert: replaces the first entry with the key, appends
a fresh entry otherwise (models map insert). -/
def insertA {α : Type} : List (Nat × α) → Nat → α → List (Nat × α)
  | [], a, v => [(a, v)]
  | p :: rest, a, v => if p.1 = a then (a, v) :: rest else p :: insertA rest a v

/-- Association list delete of the first entry with the key. -/
def eraseA {α : Type} : List (Nat × α) → Nat → List (Nat × α)
  | [], _ => []
  | p :: rest, a => if p.1 = a then rest else p :: eraseA rest a

/-- Fold the entries of `other` into `m`, overriding on key collision
(models `BTreeMap::extend`). -/
def extendA {α : Type} (m other : List (Nat × α)) : List (Nat × α) :=
  other.foldl (fun acc p => insertA acc p.1 p.2) m

/-- reth_primitives::Account: balance, nonce, optional bytecode hash. -/
structure Account where
  balance : Nat
  nonce : Nat
  bytecode_hash : Option Nat
deriving DecidableEq

/-- reth_primitives::StorageEntry: a storage slot key and its value. -/
structure StorageEntry where
  key : Nat
  value : Nat
deriving DecidableEq

/-- Storage for an account (execution_result.rs): wipe marker plus the
staged slot map. -/
structure Storage where
  wiped : Bool
  storage : List (Nat × Nat)
deriving DecidableEq

/-- StorageChangeset entries: slot to (old value, new value). -/
abbrev StorageChangesetE := List (Nat × (Nat × Nat))

/-- Receipts are opaque payloads for the journal. -/
abbrev Receipt := Nat

/-- Bytecode is an opaque byte list. -/
abbrev Bytecode := List Nat

/-- execution_result.rs `Change`: one journaled mutation with its
transition id and address. -/
inductive Change where
  | accountCreated (id : Nat) (address : Nat) (account : Account)
  | accountChanged (id : Nat) (address : Nat) (old : Account) (new : Account)
  | storageChanged (id : Nat) (address : Nat) (changeset : StorageChangesetE)
  | storageWiped (id : Nat) (address : Nat)
  | accountDestroyed (id : Nat) (address : Nat) (old : Account)
deriving DecidableEq

/-- `Change::transition_id`. -/
def Change.transition_id : Change → Nat
  | .accountCreated id _ _ => id
  | .accountChanged id _ _ _ => id
  | .storageChanged id _ _ => id
  | .storageWiped id _ => id
  | .accountDestroyed id _ _ => id

/-- `Change::address`. -/
def Change.address : Change → Nat
  | .accountCreated _ a _ => a
  | .accountChanged _ a _ _ => a
  | .storageChanged _ a _ => a
  | .storageWiped _ a => a
  | .accountDestroyed _ a _ => a

/-- `Change::set_transition_id`. -/
def Change.set_transition_id : Change → Nat → Change
  | .accountCreated _ a acct, i => .accountCreated i a acct
  | .accountChanged _ a o n, i => .accountChanged i a o n
  | .storageChanged _ a cs, i => .storageChanged i a cs
  | .storageWiped _ a, i => .storageWiped i a
  | .accountDestroyed _ a o, i => .accountDestroyed i a o

/-- execution_result.rs `PostState`: the post-execution journal. -/
structure PostState where
  current_transition_id : Nat
  accounts : List (Nat × Option Account)
  storage : List (Nat × Storage)
  changes : List Change
  bytecode : List (Nat × Bytecode)
  receipts : List Receipt
deriving DecidableEq

/-- `PostState::new` (the capacity hint has no observable effect). -/
def PostState.new : PostState :=
  { current_transition_id := 0, accounts := [], storage := [],
    changes := [], bytecode := [], receipts := [] }

/-- `PostState::transitions_count`. -/
def PostState.transitions_count (s : PostState) : Nat :=
  s.current_transition_id

/-- `PostState::add_and_apply`: update the latest-value caches for the
variant, then push the change onto the journal. -/
def PostState.add_and_apply (s : PostState) (c : Change) : PostState :=
  let s1 :=
    match c with
    | .accountCreated _ address account =>
        { s with accounts := insertA s.accounts address (some account) }
    | .accountChanged _ address _ new =>
        { s with accounts := insertA s.accounts address (some new) }
    | .accountDestroyed _ address _ =>
        { s with accounts := insertA s.accounts address none }
    | .storageChanged _ address changeset =>
        let st := (lookupA s.storage address).getD ({ wiped := false, storage := [] })
        let st1 : Storage :=
          { wiped := false,
            storage := changeset.foldl
              (fun m (p : Nat × Nat × Nat) => insertA m p.1 p.2.2) st.storage }
        { s with storage := insertA s.storage address st1 }
    | .storageWiped _ address =>
        let st := (lookupA s.storage address).getD ({ wiped := false, storage := [] })
        let st1 : Storage := { wiped := true, storage := st.storage }
        { s with storage := insertA s.storage address st1 }
  { s1 with changes := s1.changes ++ [c] }

/-- `PostState::create_account`. -/
def PostState.create_account (s : PostState) (address : Nat) (account : Account) : PostState :=
  s.add_and_apply (.accountCreated s.current_transition_id address account)

/-- `PostState::change_account`. -/
def PostState.change_account (s : PostState) (address : Nat) (old new : Account) : PostState :=
  s.add_and_apply (.accountChanged s.current_transition_id address old new)

/-- `PostState::destroy_account`: journals `AccountDestroyed` then
`StorageWiped` at the same transition id and address. -/
def PostState.destroy_account (s : PostState) (address : Nat) (account : Account) : PostState :=
  (s.add_and_apply (.accountDestroyed s.current_transition_id address account)).add_and_apply
    (.storageWiped s.current_transition_id address)

/-- `PostState::change_storage`. -/
def PostState.change_storage (s : PostState) (address : Nat)
    (changeset : StorageChangesetE) : PostState :=
  s.add_and_apply (.storageChanged s.current_transition_id address changeset)

/-- `PostState::add_bytecode`: `entry(code_hash).or_insert(bytecode)`,
first write wins. -/
def PostState.add_bytecode (s : PostState) (code_hash : Nat) (bytecode : Bytecode) : PostState :=
  { s with bytecode :=
      match lookupA s.bytecode code_hash with
      | some _ => s.bytecode
      | none => s.bytecode ++ [(code_hash, bytecode)] }

/-- `PostState::add_receipt`. -/
def PostState.add_receipt (s : PostState) (receipt : Receipt) : PostState :=
  { s with receipts := s.receipts ++ [receipt] }

/-- `PostState::finish_transition`. -/
def PostState.finish_transition (s : PostState) : PostState :=
  { s with current_transition_id := s.current_transition_id + 1 }

/-- `PostState::extend`: each incoming change is rebased by the original
`self.current_transition_id` and folded through `add_and_apply`; receipts
are appended, bytecodes map-extended, and `current_transition_id` is set to
the final value of the loop variable `next_transition_id`, that is the old
id plus the last incoming local id (unchanged when `other.changes` is
empty). -/
def PostState.extend (s : PostState) (other : PostState) : PostState :=
  let s1 := other.changes.foldl
    (fun acc c => acc.add_and_apply (c.set_transition_id (s.current_transition_id + c.transition_id)))
    s
  { s1 with
    receipts := s1.receipts ++ other.receipts,
    bytecode := extendA s1.bytecode other.bytecode,
    current_transition_id :=
      match other.changes.getLast? with
      | some c => s.current_transition_id + c.transition_id
      | none => s.current_transition_id }

/-- reth_db::models::AccountBeforeTx: the change-set row for accounts. -/
structure AccountBeforeTx where
  address : Nat
  info : Option Account
deriving DecidableEq

/-- The five persisted tables touched by `PostState::write_to_db`. The
change-set tables are kept as flat append sequences of (key, value) pairs;
`PlainStorageState` maps an address to its duplicate values in stored
order. -/
structure Tables where
  plainAccountState : List (Nat × Account)
  plainStorageState : List (Nat × List StorageEntry)
  bytecodes : List (Nat × Bytecode)
  accountChangeSet : List (Nat × AccountBeforeTx)
  storageChangeSet : List ((Nat × Nat) × StorageEntry)
deriving DecidableEq

/-- The empty database. -/
def Tables.empty : Tables :=
  { plainAccountState := [], plainStorageState := [], bytecodes := [],
    accountChangeSet := [], storageChangeSet := [] }

/-- The duplicate values stored for an address in `PlainStorageState`. -/
def dupList (m : List (Nat × List StorageEntry)) (a : Nat) : List StorageEntry :=
  (lookupA m a).getD []

/-- Cursor step `seek_by_key_subkey` followed by the exact-key check and
`delete_current` from write_to_db: scan to the first duplicate whose key is
at least the probed slot key and delete it when the keys match exactly. -/
def deleteSubkey : List StorageEntry → Nat → List StorageEntry
  | [], _ => []
  | e :: rest, k =>
      if k ≤ e.key then (if e.key = k then rest else e :: rest)
      else e :: deleteSubkey rest k

/-- Dup-cursor `upsert` into `PlainStorageState`: insert the entry at its
sorted duplicate position (entries are ordered by the full (key, value)
encoding). -/
def insertEntry : List StorageEntry → StorageEntry → List StorageEntry
  | [], e => [e]
  | x :: rest, e =>
      if e.key < x.key ∨ (e.key = x.key ∧ e.value ≤ x.value) then e :: x :: rest
      else x :: insertEntry rest e

/-- Sort key used by write_to_db: `(transition_id, address)`. -/
def changeKeyLe (c d : Change) : Bool :=
  decide (c.transition_id < d.transition_id ∨
    (c.transition_id = d.transition_id ∧ c.address ≤ d.address))

/-- Insertion step of the sort of write_to_db. -/
def insertSortedChange (c : Change) : List Change → List Change
  | [] => [c]
  | d :: rest => if changeKeyLe c d then c :: d :: rest else d :: insertSortedChange c rest

/-- The sort of write_to_db over `(transition_id, address)`. The source
calls `sort_unstable_by_key`; the model uses an insertion sort (which is
stable). None of the settled claims depends on the order of changes whose
sort keys are equal: the account-class/storage-class split is done by a
stable partition afterwards. -/
def sortChanges (l : List Change) : List Change :=
  l.foldr insertSortedChange []

/-- Partition predicate of write_to_db: account-class changes. -/
def isAccountClass : Change → Bool
  | .accountCreated _ _ _ => true
  | .accountChanged _ _ _ _ => true
  | .accountDestroyed _ _ _ => true
  | _ => false

/-- One step of the account change-set loop of write_to_db: `append_dup`
into `AccountChangeSet` under `first_transition_id + id`, with `info` being
the old account for Changed/Destroyed and `None` for Created. -/
def writeAccountChange (first : Nat) (t : Tables) (c : Change) : Tables :=
  match c with
  | .accountDestroyed id address old =>
      { t with accountChangeSet :=
          t.accountChangeSet ++ [(first + id, { address := address, info := some old })] }
  | .accountChanged id address old _ =>
      { t with accountChangeSet :=
          t.accountChangeSet ++ [(first + id, { address := address, info := some old })] }
  | .accountCreated id address _ =>
      { t with accountChangeSet :=
          t.accountChangeSet ++ [(first + id, { address := address, info := none })] }
  | _ => t

/-- One step of the storage change-set loop of write_to_db.

For `StorageChanged` every `(slot, (old, _))` pair is appended under the
composite key `(first + id, address)`.

For `StorageWiped` the source opens a dup cursor on `PlainStorageState`,
calls `seek_exact(address)` and then appends each value produced by
`next_dup_val` in a loop. Modelled from the spec (the database crate that
implements the cursors is not among the sources): the libmdbx dup-cursor
semantics are that `seek_exact` positions the cursor on the first duplicate
value of the key and returns it, and `next_dup_val` moves to and returns
the following duplicate. The loop therefore appends every duplicate after
the first one, never the first one itself. -/
def writeStorageChange (first : Nat) (t : Tables) (c : Change) : Tables :=
  match c with
  | .storageChanged id address changeset =>
      let rows := changeset.map
        (fun (p : Nat × Nat × Nat) => ((first + id, address), StorageEntry.mk p.1 p.2.1))
      { t with storageChangeSet := t.storageChangeSet ++ rows }
  | .storageWiped id address =>
      match dupList t.plainStorageState address with
      | [] => t
      | _ :: rest =>
          let rows := rest.map (fun e => ((first + id, address), e))
          { t with storageChangeSet := t.storageChangeSet ++ rows }
  | _ => t

/-- One slot of the plain-storage loop of write_to_db: delete the existing
duplicate with this exact key if present, then upsert the new value when it
is non-zero. -/
def storageSlotStep (l : List StorageEntry) (p : Nat × Nat) : List StorageEntry :=
  let l1 := deleteSubkey l p.1
  if p.2 ≠ 0 then insertEntry l1 ⟨p.1, p.2⟩ else l1

/-- One address of the plain-storage loop of write_to_db: a wiped address
has all of its duplicates deleted (`seek_exact` + `delete_current_duplicates`)
and its staged values are skipped (`continue`); otherwise every staged slot
goes through `storageSlotStep`. -/
def writeStorageState (t : Tables) (address : Nat) (st : Storage) : Tables :=
  if st.wiped then
    { t with plainStorageState := insertA t.plainStorageState address [] }
  else
    let final := st.storage.foldl storageSlotStep (dupList t.plainStorageState address)
    { t with plainStorageState := insertA t.plainStorageState address final }

/-- One address of the plain-account loop of write_to_db: upsert the final
account, or delete the row (`seek_exact` + `delete_current`) when the final
value is `None`. -/
def writeAccountState (t : Tables) (address : Nat) (acct : Option Account) : Tables :=
  match acct with
  | some a => { t with plainAccountState := insertA t.plainAccountState address a }
  | none => { t with plainAccountState := eraseA t.plainAccountState address }

/-- `PostState::write_to_db`: drain and sort the changes by
`(transition_id, address)`, split them into the account class and the
storage class, write both change sets, then the latest storage state, then
the latest account state, then the bytecodes. -/
def PostState.write_to_db (post : PostState) (t : Tables) (first_transition_id : Nat) : Tables :=
  let changesets := sortChanges post.changes
  let account_changes := changesets.filter isAccountClass
  let storage_changes := changesets.filter (fun c => !isAccountClass c)
  let t1 := account_changes.foldl (writeAccountChange first_transition_id) t
  let t2 := storage_changes.foldl (writeStorageChange first_transition_id) t1
  let t3 := post.storage.foldl (fun acc p => writeStorageState acc p.1 p.2) t2
  let t4 := post.accounts.foldl (fun acc p => writeAccountState acc p.1 p.2) t3
  post.bytecode.foldl
    (fun acc p => { acc with bytecodes := insertA acc.bytecodes p.1 p.2 }) t4

/-- The largest `u64` value. -/
def u64Max : Nat := 2 ^ 64 - 1

/-- network_io_meter.rs conversion of a byte count to `u64`:
`u64::try_from(n).unwrap_or(u64::max_value())`, clamping at `u64::MAX`. -/
def u64SatOfNat (n : Nat) : Nat := min n u64Max

/-- `AtomicU64::fetch_add` result as seen by a later load: `u64` addition
wraps modulo `2 ^ 64`. -/
def fetch_add_u64 (prev n : Nat) : Nat := (prev + n) % 2 ^ 64

/-- Ingress counter value after a successful `MeteredStream::poll_read` of
`n` bytes, starting from counter value `prev`. -/
def pollReadIngress (prev n : Nat) : Nat := fetch_add_u64 prev (u64SatOfNat n)

/-- Egress counter value after a successful `MeteredStream::poll_write` of
`n` bytes, starting from counter value `prev`. -/
def pollWriteEgress (prev n : Nat) : Nat := fetch_add_u64 prev (u64SatOfNat n)

/-- sync-controller messages; the fork-choice state and blocks are opaque
payloads. -/
inductive SyncControllerMessage where
  | forkchoiceUpdated (state : Nat)
  | newPayload (block : Nat)
deriving DecidableEq

/-- sync-controller `PipelineState`: a pipeline value when idle, an
in-flight pipeline future when running (both opaque). -/
inductive PipelineState where
  | idle (pipeline : Nat)
  | running (fut : Nat)
deriving DecidableEq

/-- `SyncController` fields that the poll loop touches. -/
structure SyncController where
  forkchoice_state : Option Nat
  pipeline_state : Option PipelineState
deriving DecidableEq

/-- Outcome of one `poll` call. -/
inductive PollOutcome where
  | pending
  | ready
deriving DecidableEq

/-- `SyncController::next_pipeline_state`, with the pipeline future
behaviour abstracted: `run_as_fut` maps a pipeline to its future, and
`futPoll` returns the pipeline when polling the future is ready. -/
def next_pipeline_state (run_as_fut : Nat → Nat) (futPoll : Nat → Option Nat)
    (current : PipelineState) (sync_needed : Bool) : PipelineState :=
  match current with
  | .running fut =>
      match futPoll fut with
      | some pipeline =>
          if sync_needed then .running (run_as_fut pipeline) else .idle pipeline
      | none => .running fut
  | .idle pipeline =>
      if sync_needed then .running (run_as_fut pipeline) else .idle pipeline

/-- The message-draining loop at the top of `SyncController::poll`:
`ForkchoiceUpdated` overwrites the recorded fork-choice state, `NewPayload`
is currently dropped. Returns the final `forkchoice_state` field. -/
def drainMessages (fc : Option Nat) (msgs : List SyncControllerMessage) : Option Nat :=
  msgs.foldl
    (fun acc msg =>
      match msg with
      | .forkchoiceUpdated st => some st
      | .newPayload _ => acc)
    fc

/-- `SyncController::poll` for one wake-up with the pending messages
`msgs`: drain the messages, park (return `Pending`) when no fork-choice was
ever received, otherwise advance the pipeline state machine once with the
hard-coded `pipeline_sync_needed = false` and park. The `None` result
models the `expect` panic when the pipeline state is absent. -/
def SyncController.poll (run_as_fut : Nat → Nat) (futPoll : Nat → Option Nat)
    (c : SyncController) (msgs : List SyncControllerMessage) :
    Option (SyncController × PollOutcome) :=
  match drainMessages c.forkchoice_state msgs with
  | none => some ({ c with forkchoice_state := none }, PollOutcome.pending)
  | some st =>
      match c.pipeline_state with
      | none => none
      | some cur =>
          let next := next_pipeline_state run_as_fut futPoll cur false
          some ({ forkchoice_state := some st, pipeline_state := some next },
            PollOutcome.pending)

/-- revm `AccountState` as used by the prestate filter. -/
inductive AccountState where
  | notExisting
  | touched
  | storageCleared
  | noneState
deriving DecidableEq

/-- A substate account as read back after execution in prestate/mod.rs:
the revm state flag, the info fields, and the touched storage slots. -/
structure SubAccount where
  account_state : AccountState
  balance : Nat
  nonce : Nat
  code_hash : Nat
  storage : List (Nat × Nat)
deriving DecidableEq

/-- prestate/mod.rs `PrestateAccount`. -/
structure PrestateAccount where
  balance : Nat
  nonce : Nat
  storage : List (Nat × Nat)
  code : Option Bytecode
deriving DecidableEq

/-- The `matches!(account.account_state, AccountState::NotExisting)` test. -/
def isNotExisting (st : AccountState) : Bool :=
  match st with
  | .notExisting => true
  | _ => false

/-- The account filter and map of `Command::execute` in prestate/mod.rs:
drop accounts whose state is `NotExisting`; the `code` field is the
bytecode found by `code_by_hash` filtered to be non-empty (so an empty
bytecode leaves the field `None`, which serde omits). `code_by_hash` is a
parameter because the executor substate is outside the sources. -/
def prestateAccounts (code_by_hash : Nat → Option Bytecode)
    (all : List (Nat × SubAccount)) : List (Nat × PrestateAccount) :=
  (all.filter (fun p => !isNotExisting p.2.account_state)).map
    (fun p =>
      (p.1,
        { balance := p.2.balance, nonce := p.2.nonce, storage := p.2.storage,
          code := (code_by_hash p.2.code_hash).bind
            (fun code => if code.isEmpty then none else some code) }))

/-- The hexadecimal digits produced by the Rust `LowerHex` formatter. -/
def hexChars : List Char :=
  String.data "0123456789abcdef"

/-- Rust `format!("0x{:0>64x}", k)`: the lowercase hexadecimal digits of
`k` (which `Nat.toDigits 16` produces, with `['0']` for zero exactly like
the Rust formatter), left-padded with `'0'` to width 64 and prefixed with
`0x`. -/
def hexPad64 (k : Nat) : String :=
  String.mk
    ('0' :: 'x' ::
      (List.replicate (64 - (Nat.toDigits 16 k).length) '0' ++ Nat.toDigits 16 k))

/-- prestate/mod.rs `geth_alloc_compat`: render each storage pair through
`format!("0x{:0>64x}", _)`. -/
def geth_alloc_compat (storage : List (Nat × Nat)) : List (String × String) :=
  storage.map (fun p => (hexPad64 p.1, hexPad64 p.2))

/-- A string is a well-formed rendered word: `0x` then exactly 64
hexadecimal digits. -/
def hexFormatOk (s : String) : Prop :=
  s.data.length = 66 ∧ s.data.take 2 = ['0', 'x'] ∧
    ∀ ch ∈ s.data.drop 2, ch ∈ hexChars

/-- A journal with two finished transitions (changes at local ids 0, 1). -/
def extendDemoA : PostState :=
  ((PostState.new.create_account 1 ⟨1, 0, none⟩).finish_transition.create_account 2
      ⟨1, 0, none⟩).finish_transition

/-- A journal with one finished transition (one change at local id 0). -/
def extendDemoB : PostState :=
  (PostState.new.create_account 3 ⟨1, 0, none⟩).finish_transition

/-- The account used by the persistence scenarios. -/
def wipeDemoAccount : Account := ⟨1, 0, none⟩

/-- A journal holding one destroyed account (`AccountDestroyed` +
`StorageWiped` at transition 0 for address 5). -/
def wipeDemoPost : PostState :=
  (PostState.new.destroy_account 5 wipeDemoAccount).finish_transition

/-- A database whose plain storage has two duplicate entries for
address 5. -/
def wipeDemoTables : Tables :=
  { Tables.empty with plainStorageState := [(5, [⟨1, 10⟩, ⟨2, 20⟩])] }

/-- A journal whose storage cache marks address 5 as wiped while still
holding the staged slot (7, 42): obtained by a storage write followed by
`destroy_account`, which retains the map. -/
def wipedStagedPost : PostState :=
  ((PostState.new.change_storage 5 [(7, (0, 42))]).destroy_account 5
      wipeDemoAccount).finish_transition

/-- A controller that has not yet received any fork-choice update and owns
an idle pipeline. -/
def pollDemoController : SyncController :=
  { forkchoice_state := none, pipeline_state := some (PipelineState.idle 0) }

/-- Statement form of the zero-slot invariant: the plain storage table
holds no entry with value 0. -/
def NonzeroInv (m : List (Nat × List StorageEntry)) : Prop :=
  ∀ a : Nat, ∀ e ∈ dupList m a, e.value ≠ 0

/-- A journal staging a zero storage write (slot 7 set to 0 at address 5). -/
def zeroDemoPost : PostState :=
  (PostState.new.change_storage 5 [(7, (42, 0))]).finish_transition

/-- A journal staging one live storage write (slot 3 set to 4 at
address 9), with the address not wiped. -/
def stagedDemoPost : PostState :=
  (PostState.new.change_storage 9 [(3, (0, 4))]).finish_transition

/-- Is the change an `AccountDestroyed`. -/
def Change.isDestroy : Change → Bool
  | .accountDestroyed _ _ _ => true
  | _ => false

/-- Is `w` the wipe paired with the change `c`: a `StorageWiped` carrying
the same transition id and the same address. -/
def isWipeFor (w c : Change) : Bool :=
  match w with
  | .storageWiped id a => decide (id = c.transition_id ∧ a = c.address)
  | _ => false

/-- Every `AccountDestroyed` entry of the list is immediately followed by
its paired `StorageWiped` at the same transition id and address. -/
def pairedOk : List Change → Bool
  | [] => true
  | [c] => !c.isDestroy
  | c :: c2 :: rest => (!c.isDestroy || isWipeFor c2 c) && pairedOk (c2 :: rest)

/-- The journals reachable from the empty journal through the public
mutators and `extend`. -/
inductive Reachable : PostState → Prop where
  | empty : Reachable PostState.new
  | create {s : PostState} (address : Nat) (account : Account) :
      Reachable s → Reachable (s.create_account address account)
  | change {s : PostState} (address : Nat) (old new : Account) :
      Reachable s → Reachable (s.change_account address old new)
  | destroy {s : PostState} (address : Nat) (account : Account) :
      Reachable s → Reachable (s.destroy_account address account)
  | changeStorage {s : PostState} (address : Nat) (changeset : StorageChangesetE) :
      Reachable s → Reachable (s.change_storage address changeset)
  | addBytecode {s : PostState} (code_hash : Nat) (code : Bytecode) :
      Reachable s → Reachable (s.add_bytecode code_hash code)
  | addReceipt {s : PostState} (receipt : Receipt) :
      Reachable s → Reachable (s.add_receipt receipt)
  | finish {s : PostState} : Reachable s → Reachable s.finish_transition
  | extend {s other : PostState} :
      Reachable s → Reachable other → Reachable (s.extend other)

/-- A substate with one live account (balance 7, nonce 1, code hash 1,
slot 1 holding 255) and one account marked not existing. -/
def prestateDemoAll : List (Nat × SubAccount) :=
  [(10, ⟨AccountState.touched, 7, 1, 1, [(1, 255)]⟩),
    (11, ⟨AccountState.notExisting, 0, 0, 2, []⟩)]

/-- A code lookup returning a two-byte program for hash 1 and empty
bytecode otherwise. -/
def prestateDemoCode (code_hash : Nat) : Option Bytecode :=
  if code_hash = 1 then some [96, 0] else some []

/-- C1: on the scenario of the claim (receiver with two transitions,
argument with one change at local transition 0 and transition count 1),
`extend` rebases the merged change ids to 0, 1, 2 as claimed, but
`transitions_count()` afterwards is 2 and not 3 = 2 + 1: the source sets
`current_transition_id` to the id of the last rebased change instead of to
the sum of the two prior counts. -/
theorem extend_transitions_count_not_additive :
    extendDemoA.transitions_count = 2 ∧ extendDemoB.transitions_count = 1 ∧
      (extendDemoA.extend extendDemoB).changes.map Change.transition_id = [0, 1, 2] ∧
      (extendDemoA.extend extendDemoB).transitions_count = 2 := by
  decide

/-- C2: persisting a `StorageWiped` for address 5 over a plain storage that
holds the two entries (1, 10) and (2, 20) appends only (2, 20) to
`StorageChangeSet` under key (0, 5): the `seek_exact` sits on the first
duplicate and the loop only consumes `next_dup_val`, so the first prior
slot entry is never captured. -/
theorem wipe_capture_skips_first_entry :
    dupList wipeDemoTables.plainStorageState 5 = [⟨1, 10⟩, ⟨2, 20⟩] ∧
      (wipeDemoPost.write_to_db wipeDemoTables 0).storageChangeSet =
        [((0, 5), ⟨2, 20⟩)] := by
  decide

/-- C3 counterexample: for a wiped address the staged slot values are NOT
materialized: the storage cache of the journal holds wiped = true together
with the staged pair (7, 42), yet after `write_to_db` the plain storage for
address 5 is empty, where the claim would require the entry (7, 42). -/
theorem wiped_staged_values_not_written :
    lookupA wipedStagedPost.storage 5 = some ⟨true, [(7, 42)]⟩ ∧
      dupList (wipedStagedPost.write_to_db Tables.empty 0).plainStorageState 5 = [] := by
  decide

/-- C4 counterexample: a successful read of one byte when the shared
ingress counter already holds 2^64 - 1 stores 0, which is below the prior
value: `fetch_add` wraps, it does not saturate. The same expression models
the egress counter on writes. -/
theorem metered_counter_wraps :
    pollReadIngress u64Max 1 = 0 ∧ pollWriteEgress u64Max 1 = 0 ∧ 0 < u64Max := by
  decide

/-- C4 amended: each successful read (write) of `n` bytes stores
`(prev + min n (2^64 - 1)) mod 2^64` into the ingress (egress) counter; in
particular whenever that sum does not overflow the counter increases by
exactly the converted byte count, and the claimed saturation behaviour
holds on that non-overflow domain. -/
theorem metered_counter_increment (prev n : Nat)
    (h : prev + min n u64Max < 2 ^ 64) :
    pollReadIngress prev n = prev + min n u64Max ∧
      pollWriteEgress prev n = prev + min n u64Max := by
  simp only [pollReadIngress, pollWriteEgress, fetch_add_u64, u64SatOfNat]
  exact ⟨Nat.mod_eq_of_lt h, Nat.mod_eq_of_lt h⟩

/-- Witness for the amended C4 statement at prev = 5, n = 3. -/
theorem metered_counter_increment_witness :
    5 + min 3 u64Max < 2 ^ 64 ∧
      (pollReadIngress 5 3 = 5 + min 3 u64Max ∧
        pollWriteEgress 5 3 = 5 + min 3 u64Max) :=
  ⟨by decide, metered_counter_increment 5 3 (by decide)⟩

/-- C8: when no fork-choice update has ever been received (the drained
`forkchoice_state` is still `None`), `poll` returns `Pending` and leaves
the pipeline state untouched, so an idle pipeline is never started. -/
theorem poll_without_forkchoice_parks (run_as_fut : Nat → Nat)
    (futPoll : Nat → Option Nat) (c : SyncController)
    (msgs : List SyncControllerMessage)
    (h : drainMessages c.forkchoice_state msgs = none) :
    SyncController.poll run_as_fut futPoll c msgs =
        some ({ c with forkchoice_state := none }, PollOutcome.pending) ∧
      ({ c with forkchoice_state := none } : SyncController).pipeline_state =
        c.pipeline_state := by
  refine ⟨?_, rfl⟩
  unfold SyncController.poll
  rw [h]

/-- Witness for C8: polling the demo controller with one pending
`NewPayload` message parks and keeps the pipeline idle. -/
theorem poll_without_forkchoice_parks_witness :
    drainMessages pollDemoController.forkchoice_state
        [SyncControllerMessage.newPayload 7] = none ∧
      (SyncController.poll (fun p => p) (fun _ => none) pollDemoController
            [SyncControllerMessage.newPayload 7] =
          some ({ pollDemoController with forkchoice_state := none },
            PollOutcome.pending) ∧
        ({ pollDemoController with forkchoice_state := none } :
            SyncController).pipeline_state = pollDemoController.pipeline_state) :=
  ⟨rfl, poll_without_forkchoice_parks (fun p => p) (fun _ => none)
    pollDemoController [SyncControllerMessage.newPayload 7] rfl⟩

/-- C10: `add_bytecode` and `add_receipt` leave every other component of
the journal unchanged: no change is journaled, the transition clock does
not advance, and the account and storage caches are untouched. -/
theorem add_bytecode_add_receipt_frame (s : PostState) (h : Nat)
    (code : Bytecode) (r : Receipt) :
    (s.add_bytecode h code).changes = s.changes ∧
    (s.add_bytecode h code).current_transition_id = s.current_transition_id ∧
    (s.add_bytecode h code).accounts = s.accounts ∧
    (s.add_bytecode h code).storage = s.storage ∧
    (s.add_bytecode h code).receipts = s.receipts ∧
    (s.add_receipt r).changes = s.changes ∧
    (s.add_receipt r).current_transition_id = s.current_transition_id ∧
    (s.add_receipt r).accounts = s.accounts ∧
    (s.add_receipt r).storage = s.storage ∧
    (s.add_receipt r).bytecode = s.bytecode :=
  ⟨rfl, rfl, rfl, rfl, rfl, rfl, rfl, rfl, rfl, rfl⟩

/-- Lookup after an association-list insert: the inserted key reads the new
value, any other key is unaffected. -/
theorem lookupA_insertA {α : Type} (m : List (Nat × α)) (b : Nat) (v : α) (a : Nat) :
    lookupA (insertA m b v) a = if a = b then some v else lookupA m a := by
  induction m with
  | nil =>
      by_cases hab : a = b
      · subst hab; simp [insertA, lookupA]
      · simp [insertA, lookupA, hab, Ne.symm hab]
  | cons p rest ih =>
      by_cases hpb : p.1 = b
      · by_cases hab : a = b
        · subst hab; simp [insertA, lookupA, hpb]
        · simp only [insertA, if_pos hpb, lookupA]
          rw [if_neg (fun h : b = a => hab h.symm), if_neg hab,
            if_neg (fun h : p.1 = a => hab (h.symm.trans hpb))]
      · by_cases hpa : p.1 = a
        · have hab : ¬a = b := fun h => hpb (h ▸ hpa)
          simp only [insertA, if_neg hpb, lookupA, if_pos hpa, if_neg hab]
        · simp only [insertA, if_neg hpb, lookupA, if_neg hpa, ih]

/-- Duplicate list after overriding one address in the plain storage
table. -/
theorem dupList_insertA (m : List (Nat × List StorageEntry)) (b : Nat)
    (l : List StorageEntry) (a : Nat) :
    dupList (insertA m b l) a = if a = b then l else dupList m a := by
  unfold dupList
  rw [lookupA_insertA]
  by_cases hab : a = b <;> simp [hab]

/-- The account change-set loop never touches the plain storage table. -/
theorem writeAccountChange_plainStorage (first : Nat) (t : Tables) (c : Change) :
    (writeAccountChange first t c).plainStorageState = t.plainStorageState := by
  cases c <;> rfl

/-- The storage change-set loop never touches the plain storage table. -/
theorem writeStorageChange_plainStorage (first : Nat) (t : Tables) (c : Change) :
    (writeStorageChange first t c).plainStorageState = t.plainStorageState := by
  cases c with
  | storageWiped id address =>
      simp only [writeStorageChange]
      split <;> rfl
  | accountCreated id address account => rfl
  | accountChanged id address old new => rfl
  | storageChanged id address changeset => rfl
  | accountDestroyed id address old => rfl

/-- The plain account loop never touches the plain storage table. -/
theorem writeAccountState_plainStorage (t : Tables) (address : Nat)
    (acct : Option Account) :
    (writeAccountState t address acct).plainStorageState = t.plainStorageState := by
  cases acct <;> rfl

/-- Folding any step that preserves the plain storage table preserves it. -/
theorem foldl_plainStorage_eq {β : Type} (f : Tables → β → Tables)
    (hf : ∀ (tt : Tables) (b : β), (f tt b).plainStorageState = tt.plainStorageState) :
    ∀ (l : List β) (tt : Tables),
      (l.foldl f tt).plainStorageState = tt.plainStorageState := by
  intro l
  induction l with
  | nil => intro tt; rfl
  | cons x rest ih => intro tt; rw [List.foldl_cons, ih, hf]

/-- Deleting a duplicate only removes entries. -/
theorem mem_deleteSubkey (l : List StorageEntry) (k : Nat) (e : StorageEntry)
    (he : e ∈ deleteSubkey l k) : e ∈ l := by
  induction l with
  | nil => simp [deleteSubkey] at he
  | cons x rest ih =>
      simp only [deleteSubkey] at he
      split at he
      · split at he
        · exact List.mem_cons_of_mem x he
        · exact he
      · rcases List.mem_cons.mp he with h | h
        · subst h; exact List.mem_cons_self _ _
        · exact List.mem_cons_of_mem _ (ih h)

/-- An entry of an upsert result is the upserted entry or an old one. -/
theorem mem_insertEntry (l : List StorageEntry) (x e : StorageEntry)
    (he : e ∈ insertEntry l x) : e = x ∨ e ∈ l := by
  induction l with
  | nil =>
      simp only [insertEntry, List.mem_singleton] at he
      exact Or.inl he
  | cons y rest ih =>
      simp only [insertEntry] at he
      split at he
      · rcases List.mem_cons.mp he with h | h
        · exact Or.inl h
        · exact Or.inr h
      · rcases List.mem_cons.mp he with h | h
        · exact Or.inr (h ▸ List.mem_cons_self _ _)
        · rcases ih h with h2 | h2
          · exact Or.inl h2
          · exact Or.inr (List.mem_cons_of_mem _ h2)

/-- The per-slot loop only ever inserts non-zero values. -/
theorem nonzero_foldl_slots (slots : List (Nat × Nat)) :
    ∀ l : List StorageEntry, (∀ e ∈ l, e.value ≠ 0) →
      ∀ e ∈ slots.foldl storageSlotStep l, e.value ≠ 0 := by
  induction slots with
  | nil => intro l h; simpa using h
  | cons p rest ih =>
      intro l h
      rw [List.foldl_cons]
      apply ih
      intro e he
      simp only [storageSlotStep] at he
      split at he
      next hv =>
        rcases mem_insertEntry _ _ _ he with h2 | h2
        · subst h2; exact hv
        · exact h e (mem_deleteSubkey _ _ _ h2)
      next hv => exact h e (mem_deleteSubkey _ _ _ he)

/-- How one address of the plain-storage loop changes the duplicate
lists. -/
theorem dupList_writeStorageState (t : Tables) (b : Nat) (st : Storage) (a : Nat) :
    dupList (writeStorageState t b st).plainStorageState a =
      if a = b then
        (if st.wiped then []
          else st.storage.foldl storageSlotStep (dupList t.plainStorageState b))
      else dupList t.plainStorageState a := by
  unfold writeStorageState
  by_cases hw : st.wiped
  · simp [hw, dupList_insertA]
  · simp [hw, dupList_insertA]

/-- The plain-storage loop result only depends on the plain storage
projection of the starting tables. -/
theorem foldl_writeStorageState_proj (l : List (Nat × Storage)) :
    ∀ t u : Tables, t.plainStorageState = u.plainStorageState →
      ((l.foldl (fun acc p => writeStorageState acc p.1 p.2) t)).plainStorageState =
        ((l.foldl (fun acc p => writeStorageState acc p.1 p.2) u)).plainStorageState := by
  induction l with
  | nil => intro t u h; exact h
  | cons p rest ih =>
      intro t u h
      rw [List.foldl_cons, List.foldl_cons]
      apply ih
      unfold writeStorageState
      by_cases hw : p.2.wiped <;> simp [hw, h, dupList]

/-- Addresses that do not occur in the processed list keep their duplicate
list. -/
theorem foldl_writeStorageState_other (l : List (Nat × Storage)) :
    ∀ (t : Tables) (a : Nat), (∀ q ∈ l, q.1 ≠ a) →
      dupList ((l.foldl (fun acc p => writeStorageState acc p.1 p.2) t)).plainStorageState a =
        dupList t.plainStorageState a := by
  induction l with
  | nil => intro t a _; rfl
  | cons p rest ih =>
      intro t a hne
      rw [List.foldl_cons, ih _ a (fun q hq => hne q (List.mem_cons_of_mem _ hq)),
        dupList_writeStorageState,
        if_neg (fun hab => hne p (List.mem_cons_self _ _) hab.symm)]

/-- The duplicate list of an address occurring exactly once in the storage
cache after the plain-storage loop. -/
theorem foldl_writeStorageState_lookup (l : List (Nat × Storage)) :
    ∀ (t : Tables) (a : Nat) (st : Storage),
      lookupA l a = some st → (l.map Prod.fst).Nodup →
      dupList ((l.foldl (fun acc p => writeStorageState acc p.1 p.2) t)).plainStorageState a =
        (if st.wiped then []
          else st.storage.foldl storageSlotStep (dupList t.plainStorageState a)) := by
  induction l with
  | nil => intro t a st hget _; simp [lookupA] at hget
  | cons p rest ih =>
      intro t a st hget hnd
      simp only [List.map_cons, List.nodup_cons] at hnd
      simp only [lookupA] at hget
      rw [List.foldl_cons]
      by_cases hpa : p.1 = a
      · rw [if_pos hpa] at hget
        injection hget with hst
        subst hst
        have hother : ∀ q ∈ rest, q.1 ≠ a := by
          intro q hq hqa
          exact hnd.1 (by
            rw [hpa, ← hqa]
            exact List.mem_map_of_mem Prod.fst hq)
        rw [foldl_writeStorageState_other rest _ a hother, dupList_writeStorageState,
          if_pos hpa.symm, hpa]
      · rw [if_neg hpa] at hget
        rw [ih _ a st hget hnd.2, dupList_writeStorageState,
          if_neg (fun hab : a = p.1 => hpa hab.symm)]

/-- Only the plain-storage loop of write_to_db touches the plain storage
table: the final table projection is the loop applied directly to the
input tables. -/
theorem write_to_db_plainStorage (post : PostState) (t : Tables) (F : Nat) :
    (post.write_to_db t F).plainStorageState =
      ((post.storage.foldl (fun acc p => writeStorageState acc p.1 p.2) t)).plainStorageState := by
  simp only [PostState.write_to_db]
  rw [foldl_plainStorage_eq
      (fun acc (p : Nat × Bytecode) => { acc with bytecodes := insertA acc.bytecodes p.1 p.2 })
      (fun tt p => rfl),
    foldl_plainStorage_eq (fun acc (p : Nat × Option Account) => writeAccountState acc p.1 p.2)
      (fun tt p => writeAccountState_plainStorage tt p.1 p.2)]
  exact foldl_writeStorageState_proj _ _ _
    (by rw [foldl_plainStorage_eq (writeStorageChange F)
        (fun tt c => writeStorageChange_plainStorage F tt c),
      foldl_plainStorage_eq (writeAccountChange F)
        (fun tt c => writeAccountChange_plainStorage F tt c)])

/-- C6: write_to_db preserves the no-zero-values invariant of the plain
storage table: if no entry with value 0 is stored before the call, none is
stored after it, for every journal and every first transition id. -/
theorem zero_slot_elision (post : PostState) (t : Tables) (F : Nat)
    (h : NonzeroInv t.plainStorageState) :
    NonzeroInv (post.write_to_db t F).plainStorageState := by
  intro a e he
  rw [write_to_db_plainStorage] at he
  revert he
  revert a e
  show NonzeroInv _
  have main : ∀ (l : List (Nat × Storage)) (tt : Tables),
      NonzeroInv tt.plainStorageState →
      NonzeroInv ((l.foldl (fun acc p => writeStorageState acc p.1 p.2) tt)).plainStorageState := by
    intro l
    induction l with
    | nil => intro tt hh; exact hh
    | cons p rest ih =>
        intro tt hh
        rw [List.foldl_cons]
        apply ih
        intro a e he
        rw [dupList_writeStorageState] at he
        split at he
        · split at he
          · exact absurd he (List.not_mem_nil e)
          · exact nonzero_foldl_slots _ _ (hh p.1) e he
        · exact hh a e he
  exact main post.storage t h

/-- Witness for C6 on a journal that stages a zero storage write over the
empty database. -/
theorem zero_slot_elision_witness :
    NonzeroInv Tables.empty.plainStorageState ∧
      NonzeroInv ((zeroDemoPost.write_to_db Tables.empty 0)).plainStorageState := by
  have h0 : NonzeroInv Tables.empty.plainStorageState := by
    intro a e he
    simp [dupList, lookupA, Tables.empty] at he
  exact ⟨h0, zero_slot_elision zeroDemoPost Tables.empty 0 h0⟩

/-- C3 amended: only a non-wiped address has its staged slot values
materialized (delete-then-upsert of non-zero values); for a wiped address
all duplicates are deleted and the staged values are skipped, so its plain
storage ends up empty. -/
theorem wiped_address_not_materialized (post : PostState) (t : Tables) (F a : Nat)
    (st : Storage) (hget : lookupA post.storage a = some st)
    (hnd : (post.storage.map Prod.fst).Nodup) :
    dupList (post.write_to_db t F).plainStorageState a =
      (if st.wiped then []
        else st.storage.foldl storageSlotStep (dupList t.plainStorageState a)) := by
  rw [write_to_db_plainStorage]
  exact foldl_writeStorageState_lookup post.storage t a st hget hnd

/-- Witness for the amended C3 statement on a non-wiped staged write. -/
theorem wiped_address_not_materialized_witness :
    lookupA stagedDemoPost.storage 9 = some ⟨false, [(3, 4)]⟩ ∧
      (stagedDemoPost.storage.map Prod.fst).Nodup ∧
      dupList ((stagedDemoPost.write_to_db Tables.empty 0)).plainStorageState 9 =
        (if (Storage.mk false [(3, 4)]).wiped then []
          else (Storage.mk false [(3, 4)]).storage.foldl storageSlotStep
            (dupList Tables.empty.plainStorageState 9)) :=
  ⟨by decide, by decide,
    wiped_address_not_materialized stagedDemoPost Tables.empty 0 9
      ⟨false, [(3, 4)]⟩ (by decide) (by decide)⟩

/-- `set_transition_id` keeps the variant. -/
theorem isDestroy_set_transition_id (c : Change) (i : Nat) :
    (c.set_transition_id i).isDestroy = c.isDestroy := by
  cases c <;> rfl

/-- `set_transition_id` sets the transition id. -/
theorem transition_id_set_transition_id (c : Change) (i : Nat) :
    (c.set_transition_id i).transition_id = i := by
  cases c <;> rfl

/-- `set_transition_id` keeps the address. -/
theorem address_set_transition_id (c : Change) (i : Nat) :
    (c.set_transition_id i).address = c.address := by
  cases c <;> rfl

/-- Rebasing both members of a pair by the same offset keeps the pairing. -/
theorem isWipeFor_rebase (k : Nat) (w c : Change) (h : isWipeFor w c = true) :
    isWipeFor (w.set_transition_id (k + w.transition_id))
      (c.set_transition_id (k + c.transition_id)) = true := by
  cases w with
  | storageWiped id a =>
      simp only [isWipeFor, decide_eq_true_eq] at h
      have hw : (Change.storageWiped id a).set_transition_id
          (k + (Change.storageWiped id a).transition_id) =
            Change.storageWiped (k + id) a := rfl
      rw [hw]
      simp only [isWipeFor, transition_id_set_transition_id, address_set_transition_id,
        decide_eq_true_eq]
      exact ⟨by rw [h.1], h.2⟩
  | accountCreated id a acct => simp [isWipeFor] at h
  | accountChanged id a o n => simp [isWipeFor] at h
  | storageChanged id a cs => simp [isWipeFor] at h
  | accountDestroyed id a o => simp [isWipeFor] at h

/-- Concatenating two paired journals yields a paired journal. -/
theorem pairedOk_append (l m : List Change) (hl : pairedOk l = true)
    (hm : pairedOk m = true) : pairedOk (l ++ m) = true := by
  induction l with
  | nil => simpa using hm
  | cons c rest ih =>
      cases rest with
      | nil =>
          cases m with
          | nil => simpa using hl
          | cons d m2 =>
              have hc : (!c.isDestroy) = true := by simpa [pairedOk] using hl
              simp [pairedOk, hc, hm]
      | cons c2 rest2 =>
          simp only [pairedOk, Bool.and_eq_true] at hl
          simp only [List.cons_append, pairedOk, Bool.and_eq_true]
          refine ⟨hl.1, ?_⟩
          have := ih hl.2
          simpa [List.cons_append] using this

/-- Rebasing every change of a paired journal by a fixed offset keeps it
paired. -/
theorem pairedOk_map_rebase (k : Nat) (l : List Change) (hl : pairedOk l = true) :
    pairedOk (l.map (fun c => c.set_transition_id (k + c.transition_id))) = true := by
  induction l with
  | nil => rfl
  | cons c rest ih =>
      cases rest with
      | nil =>
          simp only [List.map_cons, List.map_nil, pairedOk] at hl ⊢
          simpa [isDestroy_set_transition_id] using hl
      | cons c2 rest2 =>
          simp only [List.map_cons] at ih ⊢
          simp only [pairedOk, Bool.and_eq_true, Bool.or_eq_true] at hl ⊢
          refine ⟨?_, ih hl.2⟩
          rcases hl.1 with h | h
          · exact Or.inl (by simpa [isDestroy_set_transition_id] using h)
          · exact Or.inr (isWipeFor_rebase k c2 c h)

/-- `add_and_apply` appends exactly the given change to the journal. -/
theorem add_and_apply_changes (s : PostState) (c : Change) :
    (s.add_and_apply c).changes = s.changes ++ [c] := by
  cases c <;> rfl

/-- Folding `add_and_apply` over a list of transformed changes appends
their images. -/
theorem foldl_add_and_apply_changes (cs : List Change) (f : Change → Change) :
    ∀ s : PostState,
      ((cs.foldl (fun acc c => acc.add_and_apply (f c)) s)).changes =
        s.changes ++ cs.map f := by
  induction cs with
  | nil => intro s; simp
  | cons c rest ih =>
      intro s
      rw [List.foldl_cons, ih, add_and_apply_changes]
      simp [List.append_assoc]

/-- The journal after `extend`: the original changes followed by the
incoming changes rebased by the original transition count. -/
theorem extend_changes (s other : PostState) :
    (s.extend other).changes =
      s.changes ++ other.changes.map
        (fun c => c.set_transition_id (s.current_transition_id + c.transition_id)) :=
  foldl_add_and_apply_changes other.changes _ s

/-- C7: in every journal reachable from the empty one through the public
mutators and `extend`, every `AccountDestroyed` entry is immediately
followed by a `StorageWiped` entry with the same transition id and the
same address. -/
theorem destroy_pairs_wipe (s : PostState) (h : Reachable s) :
    pairedOk s.changes = true := by
  induction h with
  | empty => rfl
  | create address account hr ih =>
      simp only [PostState.create_account, add_and_apply_changes]
      exact pairedOk_append _ _ ih rfl
  | change address old new hr ih =>
      simp only [PostState.change_account, add_and_apply_changes]
      exact pairedOk_append _ _ ih rfl
  | destroy address account hr ih =>
      simp only [PostState.destroy_account, add_and_apply_changes, List.append_assoc]
      exact pairedOk_append _ _ ih
        (by simp [pairedOk, Change.isDestroy, isWipeFor, Change.transition_id,
          Change.address])
  | changeStorage address changeset hr ih =>
      simp only [PostState.change_storage, add_and_apply_changes]
      exact pairedOk_append _ _ ih rfl
  | addBytecode code_hash code hr ih => exact ih
  | addReceipt receipt hr ih => exact ih
  | finish hr ih => exact ih
  | extend hr ho ihs iho =>
      rw [extend_changes]
      exact pairedOk_append _ _ ihs (pairedOk_map_rebase _ _ iho)

/-- Witness for C7 on a reachable journal holding one destroyed account. -/
theorem destroy_pairs_wipe_witness :
    Reachable ((PostState.new.destroy_account 5 ⟨1, 0, none⟩).finish_transition) ∧
      pairedOk
        ((PostState.new.destroy_account 5 ⟨1, 0, none⟩).finish_transition).changes = true :=
  ⟨Reachable.finish (Reachable.destroy 5 ⟨1, 0, none⟩ Reachable.empty),
    destroy_pairs_wipe _
      (Reachable.finish (Reachable.destroy 5 ⟨1, 0, none⟩ Reachable.empty))⟩

/-- At most 64 lowercase hex digits are produced for a 256-bit value. -/
theorem toDigits_hex_length_le (n : Nat) (hn : n < 2 ^ 256) :
    (Nat.toDigits 16 n).length ≤ 64 := by
  have h16 : n < 16 ^ 64 := by
    have hpow : (16 : Nat) ^ 64 = 2 ^ 256 := by norm_num
    rw [hpow]; exact hn
  exact Nat.toDigitsCore_length 16 (by norm_num) (n + 1) n 64 h16 (by norm_num)

/-- Digits below 16 render inside the hex alphabet. -/
theorem digitChar_mem_hexChars (m : Nat) (hm : m < 16) :
    Nat.digitChar m ∈ hexChars := by
  interval_cases m <;> decide

/-- Every character produced by the base-16 digit loop lies in the hex
alphabet. -/
theorem toDigitsCore_mem_hexChars (f : Nat) :
    ∀ (n : Nat) (ds : List Char), (∀ ch ∈ ds, ch ∈ hexChars) →
      ∀ ch ∈ Nat.toDigitsCore 16 f n ds, ch ∈ hexChars := by
  induction f with
  | zero => intro n ds hds ch hch; exact hds ch hch
  | succ f ih =>
      intro n ds hds ch hch
      simp only [Nat.toDigitsCore] at hch
      have hd : ∀ ch2 ∈ Nat.digitChar (n % 16) :: ds, ch2 ∈ hexChars := by
        intro ch2 h2
        rcases List.mem_cons.mp h2 with h3 | h3
        · subst h3; exact digitChar_mem_hexChars _ (Nat.mod_lt n (by norm_num))
        · exact hds ch2 h3
      split at hch
      · exact hd ch hch
      · exact ih (n / 16) (Nat.digitChar (n % 16) :: ds) hd ch hch

/-- The rendered word for any 256-bit value is `0x` plus exactly 64 hex
digits. -/
theorem hexPad64_format (n : Nat) (hn : n < 2 ^ 256) : hexFormatOk (hexPad64 n) := by
  have hlen := toDigits_hex_length_le n hn
  refine ⟨?_, rfl, ?_⟩
  · show ('0' :: 'x' ::
        (List.replicate (64 - (Nat.toDigits 16 n).length) '0' ++
          Nat.toDigits 16 n)).length = 66
    simp only [List.length_cons, List.length_append, List.length_replicate]
    omega
  · intro ch hch
    have hch2 : ch ∈ List.replicate (64 - (Nat.toDigits 16 n).length) '0' ++
        Nat.toDigits 16 n := hch
    rcases List.mem_append.mp hch2 with h | h
    · rw [List.eq_of_mem_replicate h]; decide
    · exact toDigitsCore_mem_hexChars (n + 1) n []
        (by intro ch2 h2; simp at h2) ch h

/-- C9: the prestate dump keeps only accounts whose state is not
`NotExisting`, its `code` field is populated only by non-empty bytecode
(an empty bytecode leaves it `None`, which serde omits), and every storage
key and value of a 256-bit slot renders through `geth_alloc_compat` as a
0x-prefixed, zero-padded, 64-hex-digit string. -/
theorem prestate_dump_format (code_by_hash : Nat → Option Bytecode)
    (all : List (Nat × SubAccount)) (st : List (Nat × Nat))
    (hbound : ∀ p ∈ st, p.1 < 2 ^ 256 ∧ p.2 < 2 ^ 256) :
    (∀ q ∈ prestateAccounts code_by_hash all,
        ∃ r ∈ all, r.1 = q.1 ∧ isNotExisting r.2.account_state = false) ∧
      (∀ q ∈ prestateAccounts code_by_hash all, ∀ c, q.2.code = some c → c ≠ []) ∧
      ∀ q ∈ geth_alloc_compat st, hexFormatOk q.1 ∧ hexFormatOk q.2 := by
  refine ⟨?_, ?_, ?_⟩
  · intro q hq
    simp only [prestateAccounts, List.mem_map] at hq
    obtain ⟨p, hp, hq2⟩ := hq
    have hf := List.mem_filter.mp hp
    refine ⟨p, hf.1, ?_, ?_⟩
    · rw [← hq2]
    · simpa using hf.2
  · intro q hq c hc
    simp only [prestateAccounts, List.mem_map] at hq
    obtain ⟨p, hp, hq2⟩ := hq
    rw [← hq2] at hc
    simp only [Option.bind_eq_some] at hc
    obtain ⟨code, hcode, hif⟩ := hc
    by_cases hemp : code.isEmpty
    · rw [if_pos hemp] at hif; exact absurd hif (by simp)
    · rw [if_neg hemp] at hif
      injection hif with hif2
      subst hif2
      intro hnil
      subst hnil
      exact hemp rfl
  · intro q hq
    simp only [geth_alloc_compat, List.mem_map] at hq
    obtain ⟨p, hp, hq2⟩ := hq
    have hb := hbound p hp
    rw [← hq2]
    exact ⟨hexPad64_format p.1 hb.1, hexPad64_format p.2 hb.2⟩

/-- Witness for C9 on the demo substate and the slot (1, 255). -/
theorem prestate_dump_format_witness :
    (∀ p ∈ ([(1, 255)] : List (Nat × Nat)), p.1 < 2 ^ 256 ∧ p.2 < 2 ^ 256) ∧
      ((∀ q ∈ prestateAccounts prestateDemoCode prestateDemoAll,
          ∃ r ∈ prestateDemoAll, r.1 = q.1 ∧ isNotExisting r.2.account_state = false) ∧
        (∀ q ∈ prestateAccounts prestateDemoCode prestateDemoAll,
          ∀ c, q.2.code = some c → c ≠ []) ∧
        ∀ q ∈ geth_alloc_compat [(1, 255)], hexFormatOk q.1 ∧ hexFormatOk q.2) :=
  ⟨by decide,
    prestate_dump_format prestateDemoCode prestateDemoAll [(1, 255)] (by decide)⟩

end RethSpec
